import Mathlib

/-!
Verification of the tail-and-broadcast log streaming server (`server.js`).

The source is a Node.js program that
  * serves the last 10 lines of a log file to each newly connected
    WebSocket client (`readLastLines`, or `fs.readFile` in the simpler
    variant),
  * watches the file with `fs.watch`; on a `change` event it re-stats the
    file and, if the size grew, streams the byte range
    `[lastSize, stats.size]` to every connected client whose
    `readyState` is `OPEN`, then sets `lastSize = stats.size`.

This file is a shallow embedding of that logic:
  * file contents are `List Char`; byte offsets are `Nat`;
  * `readLastLines`'s backward-chunked loop is `tailLoop`, with the
    chunk size (1024 in the source: `Buffer.alloc(1024)`) kept as a
    parameter so properties quantified over chunk sizes can be stated;
  * the `fs.watch` handler is a step function on a `WatchState`
    (file content, `lastSize`, and the sequence of messages broadcast so
    far), with handler executions serialized as in Node's event loop;
  * `fs.createReadStream` delivers its data in chunks of at most the
    stream's high-water mark, 64 KiB (65536 bytes) by default for file
    streams; `streamChunks` models the resulting list of `data` events;
  * the broadcast loop over `wss.clients` and the connection handler are
    embedded as pure functions over an explicit client list.
-/

/-- JavaScript `str.split('\n')`: splits a character list at every newline.
Like JS (and `String.splitOn`), the empty string yields `[[]]`, and a
trailing newline yields a trailing empty piece. -/
def splitNl : List Char → List (List Char)
  | [] => [[]]
  | c :: cs =>
    if c = '\n' then [] :: splitNl cs
    else
      match splitNl cs with
      | [] => [[c]]
      | l :: ls => (c :: l) :: ls

/-- JavaScript `arr.slice(-n)`: the last `n` elements for `n > 0`; for
`n = 0`, `-0 === 0` so `slice(0)` returns the whole array. -/
def sliceLast (n : Nat) (xs : List (List Char)) : List (List Char) :=
  if n = 0 then xs else xs.drop (xs.length - n)

/-- The `while (position > 0 && lines.length <= lineCount)` loop of
`readLastLines`: each iteration reads `readSize = min position chunkSize`
bytes ending at `position` (i.e. the range starting at
`position - readSize`), splits the chunk at newlines and prepends the
pieces to `lines`.  The loop is expressed with an explicit fuel counter;
`C9_readLastLines_terminates` shows that fuel `position` is always
enough, which is exactly the termination argument of the source loop. -/
def tailLoop (content : List Char) (lineCount chunkSize : Nat) :
    Nat → Nat → List (List Char) → List (List Char)
  | 0, _, lines => lines
  | fuel + 1, position, lines =>
    if 0 < position ∧ lines.length ≤ lineCount then
      tailLoop content lineCount chunkSize fuel (position - min position chunkSize)
        (splitNl ((content.drop (position - min position chunkSize)).take
            (min position chunkSize)) ++ lines)
    else lines

/-- Function `readLastLines` with the chunk size (`buffer.length`) as a parameter:
run the backward loop from `position = stats.size`, drop empty lines
(`lines.filter(line => line)`) and keep the last `lineCount`
(`lines.slice(-lineCount)`). -/
def readLastLinesChunked (content : List Char) (lineCount chunkSize : Nat) :
    List (List Char) :=
  sliceLast lineCount
    ((tailLoop content lineCount chunkSize content.length content.length []).filter
      (· ≠ []))

/-- Source function `readLastLines(filePath, lineCount)`, whose buffer is
`Buffer.alloc(1024)`. -/
def readLastLines (content : List Char) (lineCount : Nat) : List (List Char) :=
  readLastLinesChunked content lineCount 1024

/-- The non-empty lines of a file, in order: what the last-`n`-lines
reader is specified to select from.  A trailing fragment without a final
newline counts as a line. -/
def fileLines (content : List Char) : List (List Char) :=
  (splitNl content).filter (· ≠ [])

/-- The specified result of the reader (stated from the spec, for
comparison with `readLastLines`): the last `min(n,k)` non-empty lines,
oldest first. -/
def specLastLines (content : List Char) (n : Nat) : List (List Char) :=
  (fileLines content).drop ((fileLines content).length - n)

example : readLastLinesChunked "a\nbc\nd".toList 2 1024 = ["bc".toList, "d".toList] := by decide
example : specLastLines "a\nbc\nd".toList 2 = ["bc".toList, "d".toList] := by decide
example : readLastLinesChunked "abc".toList 10 2 = [['a'], ['b', 'c']] := by decide

/-! ## The file watcher (`fs.watch` handler) -/

/-- Node's default high-water mark for `fs.createReadStream`: the stream
emits its data in chunks of at most this many bytes, so a single growth
larger than this arrives as several `data` events. -/
def highWaterMark : Nat := 65536

/-- Split `data` into consecutive chunks of at most `k` bytes: the list of
`data` events a readable stream emits for that byte range.  Fuel-based so
it evaluates by kernel reduction; fuel `data.length` always suffices. -/
def chunksOfFuel (k : Nat) : Nat → List Char → List (List Char)
  | 0, _ => []
  | _ + 1, [] => []
  | fuel + 1, c :: cs => ((c :: cs).take k) :: chunksOfFuel k fuel ((c :: cs).drop k)

/-- The sequence of `data` events of `fs.createReadStream` over `data`. -/
def streamChunks (data : List Char) : List (List Char) :=
  chunksOfFuel highWaterMark data.length data

/-- The byte range `fs.createReadStream(file, {start, end})` reads:
`end` is inclusive in Node, and the read stops at end-of-file. -/
def readRange (content : List Char) (start stop : Nat) : List Char :=
  (content.drop start).take (stop + 1 - start)

/-- The watcher's state: the file's current content, the `lastSize`
variable, and the messages broadcast so far (as received, in order, by a
subscriber that stays connected and `OPEN` throughout). -/
structure WatchState where
  content : List Char
  lastSize : Nat
  delivered : List (List Char)
deriving DecidableEq

/-- External file operations and watch notifications.  `notify` is one
execution of the `fs.watch` callback with `eventType === 'change'`;
handler executions are serialized as in Node's event loop. -/
inductive FileOp
  | append (s : List Char)
  | truncate
  | notify
deriving DecidableEq

/-- One step: appends and truncations change the file; `notify` runs the
handler body from the source: stat the file, and if `stats.size >
lastSize`, stream `[lastSize, stats.size]` to the clients and set
`lastSize = stats.size`.  There is no branch for `stats.size < lastSize`:
the source has none. -/
def step (s : WatchState) : FileOp → WatchState
  | .append x => { s with content := s.content ++ x }
  | .truncate => { s with content := [] }
  | .notify =>
    if s.lastSize < s.content.length then
      { s with
        delivered :=
          s.delivered ++ streamChunks (readRange s.content s.lastSize s.content.length)
        lastSize := s.content.length }
    else s

/-- Run a sequence of operations. -/
def runOps (s : WatchState) : List FileOp → WatchState
  | [] => s
  | op :: ops => runOps (step s op) ops

/-- Server start: `lastSize = fs.statSync(LOG_FILE).size`, nothing
delivered yet. -/
def initState (c0 : List Char) : WatchState :=
  { content := c0, lastSize := c0.length, delivered := [] }

/-- The bytes appended by a sequence of operations, in order. -/
def appendedBytes : List FileOp → List Char
  | [] => []
  | .append x :: ops => x ++ appendedBytes ops
  | _ :: ops => appendedBytes ops

/-- Holds (`true`) when the sequence contains no truncation. -/
def noTruncate : List FileOp → Bool
  | [] => true
  | .truncate :: _ => false
  | _ :: ops => noTruncate ops

example :
    (runOps (initState "x".toList)
      [.append "ab".toList, .notify, .notify, .append "c".toList, .notify]).delivered
      = ["ab".toList, "c".toList] := by decide
example :
    (runOps (initState "ab".toList)
      [.append "cd".toList, .notify, .truncate, .append "e".toList, .notify]).lastSize
      = 4 := by decide

/-! ### Helper lemmas about stream chunking and the delta range -/

lemma chunksOfFuel_nil (k : Nat) : ∀ fuel, chunksOfFuel k fuel [] = [] := by
  intro fuel
  cases fuel <;> rfl

lemma chunksOfFuel_cons (k fuel : Nat) (c : Char) (cs : List Char) :
    chunksOfFuel k (fuel + 1) (c :: cs)
      = ((c :: cs).take k) :: chunksOfFuel k fuel ((c :: cs).drop k) := rfl

lemma chunksOfFuel_flatten (k : Nat) (hk : 1 ≤ k) :
    ∀ fuel (data : List Char), data.length ≤ fuel →
      (chunksOfFuel k fuel data).flatten = data := by
  intro fuel
  induction fuel with
  | zero =>
    intro data hd
    have : data = [] := List.eq_nil_of_length_eq_zero (Nat.le_zero.mp hd)
    subst this
    rfl
  | succ n ih =>
    intro data hd
    cases data with
    | nil => rfl
    | cons c cs =>
      rw [chunksOfFuel_cons, List.flatten_cons, ih]
      · exact List.take_append_drop k (c :: cs)
      · have hlen : ((c :: cs).drop k).length = (c :: cs).length - k :=
          List.length_drop k (c :: cs)
        have : (c :: cs).length ≤ n + 1 := hd
        omega

lemma streamChunks_flatten (data : List Char) : (streamChunks data).flatten = data :=
  chunksOfFuel_flatten highWaterMark (by decide) data.length data (Nat.le_refl _)

lemma streamChunks_single (data : List Char) (h0 : data ≠ [])
    (h1 : data.length ≤ highWaterMark) : streamChunks data = [data] := by
  cases data with
  | nil => exact absurd rfl h0
  | cons c cs =>
    show chunksOfFuel highWaterMark ((c :: cs).length) (c :: cs) = [c :: cs]
    rw [List.length_cons, chunksOfFuel_cons, List.take_of_length_le h1,
      List.drop_eq_nil_of_le h1, chunksOfFuel_nil]

lemma streamChunks_ne_nil (data : List Char) (h0 : data ≠ []) :
    streamChunks data ≠ [] := by
  cases data with
  | nil => exact absurd rfl h0
  | cons c cs =>
    show chunksOfFuel highWaterMark ((c :: cs).length) (c :: cs) ≠ []
    rw [List.length_cons, chunksOfFuel_cons]
    exact List.cons_ne_nil _ _

lemma readRange_eq_drop (content : List Char) (start : Nat) :
    readRange content start content.length = content.drop start := by
  unfold readRange
  apply List.take_of_length_le
  rw [List.length_drop]
  omega

lemma step_notify_pos (s : WatchState) (h : s.lastSize < s.content.length) :
    step s FileOp.notify
      = { s with
          delivered := s.delivered ++
            streamChunks (readRange s.content s.lastSize s.content.length)
          lastSize := s.content.length } := by
  show (if s.lastSize < s.content.length then _ else _) = _
  rw [if_pos h]

/-! ### Monotonicity of `lastSize` -/

lemma step_lastSize_le (s : WatchState) (op : FileOp) :
    s.lastSize ≤ (step s op).lastSize := by
  cases op with
  | append x => exact Nat.le_refl _
  | truncate => exact Nat.le_refl _
  | notify =>
    unfold step
    by_cases h : s.lastSize < s.content.length
    · rw [if_pos h]
      exact Nat.le_of_lt h
    · rw [if_neg h]

lemma runOps_lastSize_le (ops : List FileOp) :
    ∀ s : WatchState, s.lastSize ≤ (runOps s ops).lastSize := by
  induction ops with
  | nil => intro s; exact Nat.le_refl _
  | cons op ops ih =>
    intro s
    exact Nat.le_trans (step_lastSize_le s op) (ih (step s op))

/-! ### The no-loss / no-duplication invariant -/

lemma drop_take_drop (l : List Char) (n m : Nat) (h1 : n ≤ m) (h2 : m ≤ l.length) :
    (l.take m).drop n ++ l.drop m = l.drop n := by
  conv_rhs => rw [← List.take_append_drop m l]
  rw [List.drop_append_of_le_length]
  rw [List.length_take]
  omega

lemma runOps_append (l₁ l₂ : List FileOp) :
    ∀ s : WatchState, runOps s (l₁ ++ l₂) = runOps (runOps s l₁) l₂ := by
  induction l₁ with
  | nil => intro s; rfl
  | cons op ops ih => intro s; exact ih (step s op)

/-- Invariant preserved by every truncation-free run: the content is the
old content plus the appended bytes, `lastSize` stays between `n` and the
file size, and the concatenation of everything delivered is exactly the
byte range `[n, lastSize)` of the content. -/
lemma runOps_noTruncate_inv (n : Nat) :
    ∀ (ops : List FileOp), noTruncate ops = true →
    ∀ s : WatchState, n ≤ s.lastSize → s.lastSize ≤ s.content.length →
      s.delivered.flatten = (s.content.take s.lastSize).drop n →
      (runOps s ops).content = s.content ++ appendedBytes ops ∧
      n ≤ (runOps s ops).lastSize ∧
      (runOps s ops).lastSize ≤ (runOps s ops).content.length ∧
      (runOps s ops).delivered.flatten
        = ((runOps s ops).content.take (runOps s ops).lastSize).drop n := by
  intro ops
  induction ops with
  | nil =>
    intro _ s h1 h2 h3
    exact ⟨(List.append_nil s.content).symm, h1, h2, h3⟩
  | cons op ops ih =>
    intro hnt s h1 h2 h3
    cases op with
    | append x =>
      have hnt' : noTruncate ops = true := hnt
      have hstep : step s (.append x) = { s with content := s.content ++ x } := rfl
      have h2' : s.lastSize ≤ (s.content ++ x).length := by
        rw [List.length_append]; omega
      have h3' : s.delivered.flatten = ((s.content ++ x).take s.lastSize).drop n := by
        rw [List.take_append_of_le_length h2, h3]
      have hrun : runOps s (.append x :: ops) = runOps (step s (.append x)) ops := rfl
      have := ih hnt' (step s (.append x)) (by rw [hstep]; exact h1)
        (by rw [hstep]; exact h2') (by rw [hstep]; exact h3')
      rw [hrun]
      refine ⟨?_, this.2.1, this.2.2.1, this.2.2.2⟩
      rw [this.1, hstep]
      show s.content ++ x ++ appendedBytes ops = s.content ++ (x ++ appendedBytes ops)
      rw [List.append_assoc]
    | truncate => simp [noTruncate] at hnt
    | notify =>
      have hnt' : noTruncate ops = true := hnt
      have hrun : runOps s (.notify :: ops) = runOps (step s .notify) ops := rfl
      by_cases h : s.lastSize < s.content.length
      · have hstep : step s .notify =
            { s with
              delivered := s.delivered ++
                streamChunks (readRange s.content s.lastSize s.content.length)
              lastSize := s.content.length } := by
          show (if s.lastSize < s.content.length then _ else s) = _
          rw [if_pos h]
        have h3' : (s.delivered ++
              streamChunks (readRange s.content s.lastSize s.content.length)).flatten
            = (s.content.take s.content.length).drop n := by
          rw [List.flatten_append, streamChunks_flatten, readRange_eq_drop, h3,
            List.take_length]
          exact drop_take_drop s.content n s.lastSize h1 h2
        have := ih hnt' (step s .notify) (by rw [hstep]; exact Nat.le_trans h1 (Nat.le_of_lt h))
          (by rw [hstep]) (by rw [hstep]; exact h3')
        rw [hrun]
        refine ⟨?_, this.2.1, this.2.2.1, this.2.2.2⟩
        rw [this.1, hstep]
        rfl
      · have hstep : step s .notify = s := by
          show (if s.lastSize < s.content.length then _ else s) = _
          rw [if_neg h]
        have := ih hnt' (step s .notify) (by rw [hstep]; exact h1)
          (by rw [hstep]; exact h2) (by rw [hstep]; exact h3)
        rw [hrun]
        refine ⟨?_, this.2.1, this.2.2.1, this.2.2.2⟩
        rw [this.1, hstep]
        rfl

/-! ### Lemmas for evaluating `readLastLines` on a long single-line file -/

lemma splitNl_replicate (n : Nat) :
    splitNl (List.replicate n 'A') = [List.replicate n 'A'] := by
  induction n with
  | zero => rfl
  | succ m ih =>
    rw [List.replicate_succ]
    have hne : ¬(('A' : Char) = '\n') := by decide
    show (if ('A' : Char) = '\n' then [] :: splitNl (List.replicate m 'A')
      else
        match splitNl (List.replicate m 'A') with
        | [] => [['A']]
        | l :: ls => ('A' :: l) :: ls) = _
    rw [if_neg hne, ih]

lemma tailLoop_succ (content : List Char) (lineCount chunkSize fuel position : Nat)
    (lines : List (List Char)) :
    tailLoop content lineCount chunkSize (fuel + 1) position lines =
      if 0 < position ∧ lines.length ≤ lineCount then
        tailLoop content lineCount chunkSize fuel (position - min position chunkSize)
          (splitNl ((content.drop (position - min position chunkSize)).take
              (min position chunkSize)) ++ lines)
      else lines := rfl

lemma tailLoop_zero (content : List Char) (lineCount chunkSize fuel : Nat)
    (lines : List (List Char)) :
    tailLoop content lineCount chunkSize fuel 0 lines = lines := by
  cases fuel with
  | zero => rfl
  | succ f =>
    rw [tailLoop_succ]
    simp

lemma readLastLines_1025 :
    readLastLines (List.replicate 1025 'A') 10 = [['A'], List.replicate 1024 'A'] := by
  unfold readLastLines readLastLinesChunked
  rw [List.length_replicate]
  have e1 : tailLoop (List.replicate 1025 'A') 10 1024 1025 1025 []
      = tailLoop (List.replicate 1025 'A') 10 1024 1024 1 [List.replicate 1024 'A'] := by
    rw [show tailLoop (List.replicate 1025 'A') 10 1024 1025 1025 []
        = tailLoop (List.replicate 1025 'A') 10 1024 (1024 + 1) 1025 [] from rfl,
      tailLoop_succ, if_pos (by constructor <;> norm_num)]
    norm_num [List.drop_replicate, List.take_replicate, splitNl_replicate]
  have e2 : tailLoop (List.replicate 1025 'A') 10 1024 1024 1 [List.replicate 1024 'A']
      = [['A'], List.replicate 1024 'A'] := by
    rw [show tailLoop (List.replicate 1025 'A') 10 1024 1024 1 [List.replicate 1024 'A']
        = tailLoop (List.replicate 1025 'A') 10 1024 (1023 + 1) 1 [List.replicate 1024 'A']
        from rfl,
      tailLoop_succ, if_pos (by constructor <;> norm_num)]
    norm_num [List.take_replicate, List.replicate_one, tailLoop_zero]
    rfl
  rw [e1, e2]
  have hrep : (List.replicate 1024 'A' : List Char) ≠ [] :=
    List.ne_nil_of_length_pos (by rw [List.length_replicate]; omega)
  have f1 : ([['A'], List.replicate 1024 'A'] : List (List Char)).filter (· ≠ [])
      = [['A'], List.replicate 1024 'A'] :=
    List.filter_eq_self.mpr (by
      intro a ha
      rw [List.mem_cons, List.mem_singleton] at ha
      cases ha with
      | inl h => subst h; decide
      | inr h => subst h; exact decide_eq_true hrep)
  rw [f1]
  unfold sliceLast
  norm_num

/-! ## C1 and C9 -/

/-- C1: the claim says `readLastLines` returns the last `min(N,k)` non-empty
lines reassembled across chunk boundaries for every `N ≥ 0`.  The code is
wrong: a single 1025-character line spanning the 1024-byte chunk boundary is
returned as two fragments (the pieces produced by `chunk.split('\n')` in
different iterations are concatenated, never joined), and for `N = 0` the
final `lines.slice(-0)` returns every collected line instead of none. -/
theorem C1_readLastLines_splits_lines :
    readLastLines (List.replicate 1025 'A') 10 = [['A'], List.replicate 1024 'A'] ∧
    specLastLines (List.replicate 1025 'A') 10 = [List.replicate 1025 'A'] ∧
    readLastLines (List.replicate 1025 'A') 10 ≠ specLastLines (List.replicate 1025 'A') 10 ∧
    readLastLines ['a'] 0 = [['a']] ∧
    specLastLines ['a'] 0 = [] := by
  have hrep : (List.replicate 1025 'A' : List Char) ≠ [] :=
    List.ne_nil_of_length_pos (by rw [List.length_replicate]; omega)
  have hspec : specLastLines (List.replicate 1025 'A') 10 = [List.replicate 1025 'A'] := by
    unfold specLastLines fileLines
    have f2 : ([List.replicate 1025 'A'] : List (List Char)).filter (· ≠ [])
        = [List.replicate 1025 'A'] :=
      List.filter_eq_self.mpr (by
        intro a ha
        rw [List.mem_singleton] at ha
        subst ha
        exact decide_eq_true hrep)
    rw [splitNl_replicate, f2]
    have hlen1 : ([List.replicate 1025 'A'] : List (List Char)).length - 10 = 0 := by
      simp only [List.length_cons, List.length_nil]
    rw [hlen1, List.drop_zero]
  refine ⟨readLastLines_1025, hspec, ?_, by decide, by decide⟩
  rw [readLastLines_1025, hspec]
  intro h
  have hlen := congrArg List.length h
  simp only [List.length_cons, List.length_nil] at hlen
  omega

/-- C9: the backward-read loop of `readLastLines` terminates: with any
positive chunk size, every iteration reads `min position chunkSize ≥ 1`
bytes and strictly decreases `position`, so `position` itself is enough
fuel — the loop's result is the same for every fuel bound `≥ position`. -/
theorem C9_readLastLines_terminates (content : List Char) (lineCount chunkSize : Nat)
    (hk : 1 ≤ chunkSize) :
    ∀ position fuel₁ fuel₂ (lines : List (List Char)),
      position ≤ fuel₁ → position ≤ fuel₂ →
      tailLoop content lineCount chunkSize fuel₁ position lines
        = tailLoop content lineCount chunkSize fuel₂ position lines := by
  intro position
  induction position using Nat.strong_induction_on with
  | _ p ih =>
    intro fuel₁ fuel₂ lines h1 h2
    cases p with
    | zero => rw [tailLoop_zero, tailLoop_zero]
    | succ q =>
      cases fuel₁ with
      | zero => omega
      | succ f₁ =>
        cases fuel₂ with
        | zero => omega
        | succ f₂ =>
          rw [tailLoop_succ, tailLoop_succ]
          by_cases hc : 0 < q + 1 ∧ lines.length ≤ lineCount
          · rw [if_pos hc, if_pos hc]
            have hmin1 : 1 ≤ min (q + 1) chunkSize :=
              Nat.le_min.mpr ⟨by omega, hk⟩
            have hminle : min (q + 1) chunkSize ≤ q + 1 := Nat.min_le_left _ _
            exact ih (q + 1 - min (q + 1) chunkSize) (by omega) f₁ f₂ _
              (by omega) (by omega)
          · rw [if_neg hc, if_neg hc]

/-- Witness for C9 at a concrete file and two different fuel bounds. -/
theorem C9_witness :
    (1 ≤ 1024 ∧ (2 : Nat) ≤ 2 ∧ (2 : Nat) ≤ 7) ∧
    tailLoop "ab".toList 10 1024 2 2 [] = tailLoop "ab".toList 10 1024 7 2 [] :=
  ⟨by omega,
    C9_readLastLines_terminates "ab".toList 10 1024 (by omega) 2 2 7 [] (by omega) (by omega)⟩

/-! ## C2, C3, C4, C8: properties of the watch handler -/

/-- No loss and no duplication in the serialized model, where each
notification's stat, delta read and delivery complete before the next
operation: for any truncation-free sequence of appends and change
notifications (including spurious or repeated notifications for the same
growth), after a final notification the concatenation of all growth
messages delivered to a subscriber connected throughout equals exactly
the bytes appended, in order.  This is only the unraced half of C2: the
asynchronous model below shows the full claim is false. -/
lemma serialized_no_loss (c0 : List Char) (ops : List FileOp)
    (h : noTruncate ops = true) :
    (runOps (initState c0) (ops ++ [FileOp.notify])).delivered.flatten
      = appendedBytes ops := by
  have base3 : (initState c0).delivered.flatten
      = ((initState c0).content.take (initState c0).lastSize).drop c0.length := by
    show ([] : List (List Char)).flatten = (c0.take c0.length).drop c0.length
    rw [List.take_length, List.drop_length]
    rfl
  obtain ⟨hc, hl, hs, hd⟩ := runOps_noTruncate_inv c0.length ops h (initState c0)
    (Nat.le_refl _) (Nat.le_refl _) base3
  rw [runOps_append]
  have hone : runOps (runOps (initState c0) ops) [FileOp.notify]
      = step (runOps (initState c0) ops) FileOp.notify := rfl
  rw [hone]
  by_cases hgrow : (runOps (initState c0) ops).lastSize
      < (runOps (initState c0) ops).content.length
  · have hstep : step (runOps (initState c0) ops) FileOp.notify =
        { runOps (initState c0) ops with
          delivered := (runOps (initState c0) ops).delivered ++
            streamChunks (readRange (runOps (initState c0) ops).content
              (runOps (initState c0) ops).lastSize
              (runOps (initState c0) ops).content.length)
          lastSize := (runOps (initState c0) ops).content.length } := by
      show (if (runOps (initState c0) ops).lastSize
          < (runOps (initState c0) ops).content.length then _ else _) = _
      rw [if_pos hgrow]
    rw [hstep]
    show ((runOps (initState c0) ops).delivered ++
        streamChunks (readRange (runOps (initState c0) ops).content
          (runOps (initState c0) ops).lastSize
          (runOps (initState c0) ops).content.length)).flatten = _
    rw [List.flatten_append, streamChunks_flatten, readRange_eq_drop, hd,
      drop_take_drop _ _ _ hl hs, hc]
    show List.drop c0.length (c0 ++ appendedBytes ops) = appendedBytes ops
    exact List.drop_left c0 (appendedBytes ops)
  · have hstep : step (runOps (initState c0) ops) FileOp.notify
        = runOps (initState c0) ops := by
      show (if (runOps (initState c0) ops).lastSize
          < (runOps (initState c0) ops).content.length then _ else _) = _
      rw [if_neg hgrow]
    rw [hstep, hd]
    have heq : (runOps (initState c0) ops).lastSize
        = (runOps (initState c0) ops).content.length := by omega
    rw [heq, List.take_length, hc]
    show List.drop c0.length (c0 ++ appendedBytes ops) = appendedBytes ops
    exact List.drop_left c0 (appendedBytes ops)

/-! ### The asynchronous read model for C2

In the source the handler body is synchronous — `fs.statSync`,
`fs.createReadStream(LOG_FILE, { start: lastSize, end: stats.size })`,
`lastSize = stats.size` — but the stream's read happens later, on the
threadpool, against the file as it is *at read time*.  Because Node's
`end` is inclusive, the stream requests one byte past the delta
(`stats.size - lastSize + 1` bytes); that byte does not exist at stat
time, but if an append lands before the read it does exist, is delivered
by the in-flight stream, and is delivered again by the next change
event, whose range starts at the already-advanced `lastSize`.  The model
splits each notification into its synchronous part (`notifyStart`) and
the later completion of its read (`readComplete`). -/

/-- Watcher state with in-flight reads: the `(start, stop)` ranges
captured by `createReadStream` calls whose data has not yet arrived,
oldest first. -/
structure AsyncState where
  content : List Char
  lastSize : Nat
  pending : List (Nat × Nat)
  delivered : List (List Char)
deriving DecidableEq

/-- Operations of the asynchronous model.  `notifyStart` is the
synchronous body of the `fs.watch` callback; `readComplete` is the later
arrival of the oldest in-flight stream's data. -/
inductive AsyncOp
  | append (s : List Char)
  | truncate
  | notifyStart
  | readComplete
deriving DecidableEq

/-- One asynchronous step.  `notifyStart` stats the file and, on growth,
records the captured range `(lastSize, stats.size)` and advances
`lastSize` — exactly the synchronous handler body.  `readComplete`
delivers the oldest captured range, read from the *current* content with
Node's inclusive `end`. -/
def asyncStep (s : AsyncState) : AsyncOp → AsyncState
  | .append x => { s with content := s.content ++ x }
  | .truncate => { s with content := [] }
  | .notifyStart =>
    if s.lastSize < s.content.length then
      { s with
        pending := s.pending ++ [(s.lastSize, s.content.length)]
        lastSize := s.content.length }
    else s
  | .readComplete =>
    match s.pending with
    | [] => s
    | (start, stop) :: rest =>
      { s with
        pending := rest
        delivered := s.delivered ++ streamChunks (readRange s.content start stop) }

/-- Run a sequence of asynchronous operations. -/
def runAsync (s : AsyncState) : List AsyncOp → AsyncState
  | [] => s
  | op :: ops => runAsync (asyncStep s op) ops

/-- Server start in the asynchronous model. -/
def initAsync (c0 : List Char) : AsyncState :=
  { content := c0, lastSize := c0.length, pending := [], delivered := [] }

/-- The bytes appended by a sequence of asynchronous operations. -/
def appendedBytesAsync : List AsyncOp → List Char
  | [] => []
  | .append x :: ops => x ++ appendedBytesAsync ops
  | _ :: ops => appendedBytesAsync ops

/-- The unraced schedules: each notification's read completes
immediately, before any further file operation. -/
def serializeOps : List FileOp → List AsyncOp
  | [] => []
  | .append x :: ops => .append x :: serializeOps ops
  | .truncate :: ops => .truncate :: serializeOps ops
  | .notify :: ops => .notifyStart :: .readComplete :: serializeOps ops

/-- A watcher state with no in-flight reads, viewed asynchronously. -/
def asyncOf (s : WatchState) : AsyncState :=
  { content := s.content, lastSize := s.lastSize, pending := [],
    delivered := s.delivered }

/-- On unraced schedules the asynchronous model coincides with the
serialized one. -/
lemma runAsync_serializeOps (l : List FileOp) :
    ∀ s : WatchState, runAsync (asyncOf s) (serializeOps l) = asyncOf (runOps s l) := by
  induction l with
  | nil => intro s; rfl
  | cons op ops ih =>
    intro s
    cases op with
    | append x => exact ih { s with content := s.content ++ x }
    | truncate => exact ih { s with content := [] }
    | notify =>
      have hser : serializeOps (FileOp.notify :: ops)
          = AsyncOp.notifyStart :: AsyncOp.readComplete :: serializeOps ops := rfl
      rw [hser]
      by_cases h : s.lastSize < s.content.length
      · have h1 : asyncStep (asyncOf s) AsyncOp.notifyStart
            = { content := s.content, lastSize := s.content.length,
                pending := [(s.lastSize, s.content.length)],
                delivered := s.delivered } := by
          show (if s.lastSize < s.content.length then _ else _) = _
          rw [if_pos h]
          rfl
        have h2 : asyncStep { content := s.content, lastSize := s.content.length,
                               pending := [(s.lastSize, s.content.length)],
                               delivered := s.delivered } AsyncOp.readComplete
            = asyncOf (step s FileOp.notify) := by
          have hstep : step s FileOp.notify =
              { s with
                delivered := s.delivered ++
                  streamChunks (readRange s.content s.lastSize s.content.length)
                lastSize := s.content.length } := step_notify_pos s h
          rw [hstep]
          rfl
        show runAsync (asyncStep (asyncStep (asyncOf s) AsyncOp.notifyStart)
            AsyncOp.readComplete) (serializeOps ops) = _
        rw [h1, h2]
        exact ih (step s FileOp.notify)
      · have h1 : asyncStep (asyncOf s) AsyncOp.notifyStart = asyncOf s := by
          show (if s.lastSize < s.content.length then _ else _) = _
          rw [if_neg h]
        have h2 : asyncStep (asyncOf s) AsyncOp.readComplete = asyncOf s := rfl
        have hstep : step s FileOp.notify = s := by
          show (if s.lastSize < s.content.length then _ else _) = _
          rw [if_neg h]
        show runAsync (asyncStep (asyncStep (asyncOf s) AsyncOp.notifyStart)
            AsyncOp.readComplete) (serializeOps ops) = asyncOf (runOps (step s FileOp.notify) ops)
        rw [h1, h2, hstep]
        exact ih s

/-- C2 counterexample: file `"x"`; append `"a"`; the watch handler runs
(captures range `(1, 2)` with inclusive end, advances `lastSize` to 2);
append `"b"` lands before the stream read; the in-flight read then
delivers `"ab"` — the inclusive `end: stats.size` picks up the first byte
of `"b"` — and the next handler run delivers `"b"` again.  The
concatenation of delivered growth messages is `"abb"`, not the appended
`"ab"`: the byte `'b'` is delivered twice, refuting the claim. -/
theorem C2_counterexample :
    (runAsync (initAsync "x".toList)
        [AsyncOp.append "a".toList, AsyncOp.notifyStart, AsyncOp.append "b".toList,
          AsyncOp.readComplete, AsyncOp.notifyStart,
          AsyncOp.readComplete]).delivered.flatten = "abb".toList ∧
    appendedBytesAsync
        [AsyncOp.append "a".toList, AsyncOp.notifyStart, AsyncOp.append "b".toList,
          AsyncOp.readComplete, AsyncOp.notifyStart, AsyncOp.readComplete]
      = "ab".toList ∧
    (runAsync (initAsync "x".toList)
        [AsyncOp.append "a".toList, AsyncOp.notifyStart, AsyncOp.append "b".toList,
          AsyncOp.readComplete, AsyncOp.notifyStart,
          AsyncOp.readComplete]).delivered.flatten
      ≠ appendedBytesAsync
        [AsyncOp.append "a".toList, AsyncOp.notifyStart, AsyncOp.append "b".toList,
          AsyncOp.readComplete, AsyncOp.notifyStart, AsyncOp.readComplete] := by
  refine ⟨by decide, by decide, ?_⟩
  intro hcontra
  exact absurd ((by decide : (runAsync (initAsync "x".toList)
      [AsyncOp.append "a".toList, AsyncOp.notifyStart, AsyncOp.append "b".toList,
        AsyncOp.readComplete, AsyncOp.notifyStart,
        AsyncOp.readComplete]).delivered.flatten = "abb".toList) ▸ hcontra)
    (by decide)

/-- C2 (amended): the no-loss/no-duplication invariant holds only for
unraced schedules — truncation-free sequences of appends and
notifications in which each notification's asynchronous delta read
completes before the next file operation.  There, after a final
notification, the concatenation of the growth messages delivered to a
subscriber connected throughout equals exactly the appended bytes, in
order, with repeated notifications for the same growth delivering
nothing extra.  When an append does land between the stat and the
in-flight read, the stream's inclusive `end: stats.size` delivers the
byte at offset `stats.size` twice — see the counterexample. -/
theorem C2_amended_no_loss_unraced_reads (c0 : List Char) (ops : List FileOp)
    (h : noTruncate ops = true) :
    (runAsync (initAsync c0) (serializeOps (ops ++ [FileOp.notify]))).delivered.flatten
      = appendedBytes ops := by
  have hinit : initAsync c0 = asyncOf (initState c0) := rfl
  rw [hinit, runAsync_serializeOps]
  show (runOps (initState c0) (ops ++ [FileOp.notify])).delivered.flatten = _
  exact serialized_no_loss c0 ops h

/-- Witness for the amended C2 on a concrete unraced run with a duplicate
notification. -/
theorem C2_witness :
    noTruncate [FileOp.append "ab".toList, FileOp.notify, FileOp.notify,
        FileOp.append "c".toList] = true ∧
    (runAsync (initAsync "x".toList)
        (serializeOps ([FileOp.append "ab".toList, FileOp.notify, FileOp.notify,
          FileOp.append "c".toList] ++ [FileOp.notify]))).delivered.flatten
      = appendedBytes [FileOp.append "ab".toList, FileOp.notify, FileOp.notify,
          FileOp.append "c".toList] :=
  ⟨by decide,
    C2_amended_no_loss_unraced_reads "x".toList
      [FileOp.append "ab".toList, FileOp.notify, FileOp.notify,
        FileOp.append "c".toList] (by decide)⟩

/-- C3 counterexample: start from a 2-byte file, append `"cd"`, notify,
truncate to empty, append `"e"`, notify.  The claim says the subscriber
receives `"e"` and the stored offset ends at `len "e" = 1`; in the code the
offset stays at 4 and nothing is delivered after the truncation. -/
theorem C3_counterexample :
    ¬ ((runOps (initState "ab".toList)
          [FileOp.append "cd".toList, FileOp.notify, FileOp.truncate,
            FileOp.append "e".toList, FileOp.notify]).lastSize = "e".toList.length ∧
        "e".toList ∈ (runOps (initState "ab".toList)
          [FileOp.append "cd".toList, FileOp.notify, FileOp.truncate,
            FileOp.append "e".toList, FileOp.notify]).delivered) := by decide

/-- C3 (amended): the watch handler has no truncation branch (`stats.size >
lastSize` is its only test), so after appending `X`, truncating to 0 and
appending `Y` with `len Y` below the stored offset, the final notification
is a no-op: the subscriber receives nothing beyond `X`'s chunks, and
`lastSize` stays at the pre-truncation value `len(S) + len(X)` — not
`len(Y)`.  Post-truncation content is silently lost until the file regrows
past the old offset. -/
theorem C3_amended_no_truncation_recovery (c0 X Y : List Char) (hX : X ≠ [])
    (hY : Y.length < c0.length + X.length) :
    (runOps (initState c0)
        [FileOp.append X, FileOp.notify, FileOp.truncate, FileOp.append Y,
          FileOp.notify]).lastSize = c0.length + X.length ∧
    (runOps (initState c0)
        [FileOp.append X, FileOp.notify, FileOp.truncate, FileOp.append Y,
          FileOp.notify]).delivered = streamChunks X := by
  have hXlen : 0 < X.length := List.length_pos.mpr hX
  have hrun : runOps (initState c0)
      [FileOp.append X, FileOp.notify, FileOp.truncate, FileOp.append Y, FileOp.notify]
      = step (step (step (step (step (initState c0) (FileOp.append X)) FileOp.notify)
          FileOp.truncate) (FileOp.append Y)) FileOp.notify := rfl
  have e1 : step (initState c0) (FileOp.append X)
      = { content := c0 ++ X, lastSize := c0.length, delivered := [] } := rfl
  have hgrow : c0.length < (c0 ++ X).length := by
    rw [List.length_append]
    omega
  have e2 : step { content := c0 ++ X, lastSize := c0.length,
                   delivered := ([] : List (List Char)) } FileOp.notify
      = { content := c0 ++ X, lastSize := (c0 ++ X).length,
          delivered := streamChunks X } := by
    show (if c0.length < (c0 ++ X).length then _ else _) = _
    rw [if_pos hgrow]
    have : readRange (c0 ++ X) c0.length (c0 ++ X).length = X := by
      rw [readRange_eq_drop, List.drop_left]
    rw [this, List.nil_append]
  have e3 : step { content := c0 ++ X, lastSize := (c0 ++ X).length,
                   delivered := streamChunks X } FileOp.truncate
      = { content := [], lastSize := (c0 ++ X).length,
          delivered := streamChunks X } := rfl
  have e4 : step { content := ([] : List Char), lastSize := (c0 ++ X).length,
                   delivered := streamChunks X } (FileOp.append Y)
      = { content := Y, lastSize := (c0 ++ X).length,
          delivered := streamChunks X } := by
    show ({ content := [] ++ Y, lastSize := (c0 ++ X).length,
            delivered := streamChunks X } : WatchState) = _
    rw [List.nil_append]
  have hnogrow : ¬ ((c0 ++ X).length < Y.length) := by
    rw [List.length_append]
    omega
  have e5 : step { content := Y, lastSize := (c0 ++ X).length,
                   delivered := streamChunks X } FileOp.notify
      = { content := Y, lastSize := (c0 ++ X).length,
          delivered := streamChunks X } := by
    show (if (c0 ++ X).length < Y.length then _ else _) = _
    rw [if_neg hnogrow]
  rw [hrun, e1, e2, e3, e4, e5]
  exact ⟨by rw [List.length_append], rfl⟩

/-- Witness for the amended C3 at `S = "ab"`, `X = "cd"`, `Y = "e"`. -/
theorem C3_witness :
    ("cd".toList ≠ [] ∧ "e".toList.length < "ab".toList.length + "cd".toList.length) ∧
    ((runOps (initState "ab".toList)
        [FileOp.append "cd".toList, FileOp.notify, FileOp.truncate,
          FileOp.append "e".toList, FileOp.notify]).lastSize
      = "ab".toList.length + "cd".toList.length ∧
    (runOps (initState "ab".toList)
        [FileOp.append "cd".toList, FileOp.notify, FileOp.truncate,
          FileOp.append "e".toList, FileOp.notify]).delivered
      = streamChunks "cd".toList) :=
  ⟨⟨by decide, by decide⟩,
    C3_amended_no_truncation_recovery "ab".toList "cd".toList "e".toList
      (by decide) (by decide)⟩

/-- C8: over every operation — in particular every execution of the watch
handler — `lastSize` never decreases; a notification reassigns it exactly
when the freshly stat'ed size is strictly larger, and then to that larger
size.  (This holds precisely because the code has no truncation reset,
which is what refutes C3.) -/
theorem C8_lastSize_monotone (s : WatchState) (op : FileOp) (ops : List FileOp) :
    s.lastSize ≤ (step s op).lastSize ∧
    (step s FileOp.notify).lastSize
      = (if s.lastSize < s.content.length then s.content.length else s.lastSize) ∧
    s.lastSize ≤ (runOps s ops).lastSize := by
  refine ⟨step_lastSize_le s op, ?_, runOps_lastSize_le ops s⟩
  by_cases h : s.lastSize < s.content.length
  · show (if s.lastSize < s.content.length then _ else s).lastSize = _
    rw [if_pos h, if_pos h]
  · show (if s.lastSize < s.content.length then _ else s).lastSize = _
    rw [if_neg h, if_neg h]

/-! ## C4: message framing per growth event -/

/-- C4 (amended): for each detected growth, each open subscriber receives
the new bytes as the stream's `data` events, appended in file order: the
chunks concatenate to exactly the delta, and a delta of at most
`highWaterMark` (64 KiB) bytes arrives as exactly one message.  A larger
delta, however, is split across several messages — see the
counterexample. -/
theorem C4_amended_growth_framing (s : WatchState) (h : s.lastSize < s.content.length) :
    (step s FileOp.notify).delivered
        = s.delivered ++ streamChunks (s.content.drop s.lastSize) ∧
    (streamChunks (s.content.drop s.lastSize)).flatten = s.content.drop s.lastSize ∧
    ((s.content.drop s.lastSize).length ≤ highWaterMark →
      streamChunks (s.content.drop s.lastSize) = [s.content.drop s.lastSize]) := by
  refine ⟨?_, streamChunks_flatten _, ?_⟩
  · have hstep : step s FileOp.notify =
        { s with
          delivered := s.delivered ++
            streamChunks (readRange s.content s.lastSize s.content.length)
          lastSize := s.content.length } := by
      show (if s.lastSize < s.content.length then _ else _) = _
      rw [if_pos h]
    rw [hstep, readRange_eq_drop]
  · intro hle
    apply streamChunks_single _ _ hle
    apply List.ne_nil_of_length_pos
    rw [List.length_drop]
    omega

/-- Witness for the amended C4 on a 1-byte growth. -/
theorem C4_witness :
    ({ content := "ab".toList, lastSize := 1,
       delivered := [] : WatchState }.lastSize
        < { content := "ab".toList, lastSize := 1,
            delivered := [] : WatchState }.content.length) ∧
    (step { content := "ab".toList, lastSize := 1, delivered := [] }
        FileOp.notify).delivered
      = [] ++ streamChunks ("ab".toList.drop 1) :=
  ⟨by decide,
    (C4_amended_growth_framing
      { content := "ab".toList, lastSize := 1, delivered := [] } (by decide)).1⟩

lemma chunksOfFuel_65537 :
    chunksOfFuel 65536 65537 (List.replicate 65537 'a')
      = [List.replicate 65536 'a', ['a']] := by
  have h1 : List.replicate 65537 'a' = 'a' :: List.replicate 65536 'a' := by
    rw [show (65537 : Nat) = 65536 + 1 from rfl, List.replicate_succ]
  have htake : ('a' :: List.replicate 65536 'a').take 65536 = List.replicate 65536 'a' := by
    rw [← List.replicate_succ, List.take_replicate]
    norm_num
  have hdrop : ('a' :: List.replicate 65536 'a').drop 65536 = ['a'] := by
    rw [← List.replicate_succ, List.drop_replicate]
    norm_num
  rw [h1, show (65537 : Nat) = 65536 + 1 from rfl, chunksOfFuel_cons, htake, hdrop]
  rw [show (65536 : Nat) = 65535 + 1 from rfl, chunksOfFuel_cons]
  have htake1 : (['a'] : List Char).take 65536 = ['a'] :=
    List.take_of_length_le (by simp)
  have hdrop1 : (['a'] : List Char).drop 65536 = [] :=
    List.drop_eq_nil_of_le (by simp)
  rw [htake1, hdrop1, chunksOfFuel_nil]

/-- C4 counterexample: a single growth event of 65537 bytes is *not*
delivered as one message holding exactly the new bytes: the read stream
emits it as two `data` events (64 KiB + 1 byte), each broadcast
separately. -/
theorem C4_counterexample :
    (step { content := List.replicate 65537 'a', lastSize := 0, delivered := [] }
        FileOp.notify).delivered ≠ [List.replicate 65537 'a'] := by
  have hlen : (List.replicate 65537 'a' : List Char).length = 65537 :=
    List.length_replicate 65537 'a'
  have hgrow : (0 : Nat) < (List.replicate 65537 'a' : List Char).length := by
    rw [hlen]
    omega
  have hstep : step { content := List.replicate 65537 'a', lastSize := 0, delivered := [] }
        FileOp.notify
      = { content := List.replicate 65537 'a',
          lastSize := (List.replicate 65537 'a' : List Char).length,
          delivered := [] ++ streamChunks (readRange (List.replicate 65537 'a') 0
            (List.replicate 65537 'a' : List Char).length) } :=
    step_notify_pos { content := List.replicate 65537 'a', lastSize := 0, delivered := [] }
      hgrow
  have hchunks : streamChunks (readRange (List.replicate 65537 'a') 0
        (List.replicate 65537 'a' : List Char).length)
      = [List.replicate 65536 'a', ['a']] := by
    rw [readRange_eq_drop, List.drop_zero]
    show chunksOfFuel highWaterMark (List.replicate 65537 'a' : List Char).length
        (List.replicate 65537 'a') = _
    rw [hlen]
    exact chunksOfFuel_65537
  rw [hstep]
  show ([] ++ streamChunks (readRange (List.replicate 65537 'a') 0
      (List.replicate 65537 'a' : List Char).length)) ≠ _
  rw [List.nil_append, hchunks]
  intro hcontra
  have := congrArg List.length hcontra
  simp only [List.length_cons, List.length_nil] at this
  omega

/-! ## C5: when `lastSize` is assigned relative to the delta read -/

/-- An observable action of one watch-handler execution: assigning
`lastSize`, or a stream `data` event being broadcast. -/
inductive WAction
  | assign (n : Nat)
  | deliver (msg : List Char)
deriving DecidableEq

/-- Tests for `data`-event broadcasts. -/
def isDeliver : WAction → Bool
  | .deliver _ => true
  | _ => false

/-- The actions of one execution of the `fs.watch` change handler on a
grown file, in runtime order.  The handler body is synchronous: it calls
`fs.createReadStream`, registers the `data` callback, and assigns
`lastSize = stats.size`; the stream's `data` callbacks only run after the
synchronous body has returned to the event loop.  So the assignment comes
first, then the deliveries. -/
def notifyActions (content : List Char) (lastSize : Nat) : List WAction :=
  if lastSize < content.length then
    WAction.assign content.length ::
      (streamChunks (readRange content lastSize content.length)).map WAction.deliver
  else []

/-- Computes whether an assignment to `lastSize` happens before some delivery. -/
def assignBeforeDeliver : List WAction → Bool
  | [] => false
  | WAction.assign _ :: rest => rest.any isDeliver || assignBeforeDeliver rest
  | WAction.deliver _ :: rest => assignBeforeDeliver rest

/-- C5 counterexample: on a 1-byte file growing from offset 0, the handler
assigns `lastSize` *before* the delta bytes are read and delivered — the
claim says that never happens. -/
theorem C5_counterexample :
    ¬ (assignBeforeDeliver (notifyActions ['a'] 0) = false) := by decide

/-- C5 (amended): the variable `lastSize` is updated synchronously as soon as growth is
detected, *before* the asynchronous delta read delivers any bytes: in
every handler execution on a grown file the assignment precedes a
delivery.  (The code never waits for the read to complete; under the
serialized model the same bytes are still delivered afterwards, but a
failed read would be silently skipped.) -/
theorem C5_amended_assign_before_read (content : List Char) (lastSize : Nat)
    (h : lastSize < content.length) :
    assignBeforeDeliver (notifyActions content lastSize) = true := by
  unfold notifyActions
  rw [if_pos h]
  have hne : streamChunks (readRange content lastSize content.length) ≠ [] := by
    rw [readRange_eq_drop]
    apply streamChunks_ne_nil
    apply List.ne_nil_of_length_pos
    rw [List.length_drop]
    omega
  cases hch : streamChunks (readRange content lastSize content.length) with
  | nil => exact absurd hch hne
  | cons c cs =>
    simp [assignBeforeDeliver, isDeliver]

/-- Witness for the amended C5 on a 2-byte file growing from offset 1. -/
theorem C5_witness :
    ((1 : Nat) < "ab".toList.length) ∧
    assignBeforeDeliver (notifyActions "ab".toList 1) = true :=
  ⟨by decide, C5_amended_assign_before_read "ab".toList 1 (by decide)⟩

/-! ## Broadcast to subscribers (C6, C10) and the connect path (C7) -/

/-- WebSocket `readyState` values. -/
inductive ReadyState
  | CONNECTING
  | OPEN
  | CLOSING
  | CLOSED
deriving DecidableEq

/-- One connected client as the broadcast loop sees it: its `readyState`,
and whether a `send` to it succeeds (`sendOk = false` models a dead peer
whose send fails at the transport level). -/
structure Client where
  id : Nat
  readyState : ReadyState
  sendOk : Bool
deriving DecidableEq

/-- The clients the broadcast loop invokes `send` on:
`wss.clients.forEach` guarded by `client.readyState === WebSocket.OPEN`.
Nothing else is checked and nothing is caught or removed in the loop. -/
def sendTargets : List Client → List Client
  | [] => []
  | c :: cs =>
    if c.readyState = ReadyState.OPEN then c :: sendTargets cs
    else sendTargets cs

/-- The outcome of one growth broadcast: the clients `send` was invoked
on, the clients delivery succeeded to, and the registry afterwards.  In
`ws`, a send's failure surfaces asynchronously through its callback or an
`error`/`close` event, not as an exception from `send`, so a failing send
neither aborts the `forEach` nor removes the client; the broadcast code
never mutates `wss.clients`. -/
structure BroadcastResult where
  attempted : List Client
  delivered : List Client
  registryAfter : List Client
deriving DecidableEq

/-- One growth broadcast over the current `wss.clients` list. -/
def broadcastGrowth (clients : List Client) : BroadcastResult :=
  { attempted := sendTargets clients
    delivered := (sendTargets clients).filter (·.sendOk)
    registryAfter := clients }

/-- C10: during a growth broadcast, `send` is invoked only on clients
whose `readyState` is `OPEN`; closing or closed subscribers are silently
skipped. -/
theorem C10_send_only_open (clients : List Client) :
    ((broadcastGrowth clients).attempted.all
      (fun c => c.readyState == ReadyState.OPEN)) = true := by
  show (sendTargets clients).all (fun c => c.readyState == ReadyState.OPEN) = true
  induction clients with
  | nil => rfl
  | cons c cs ih =>
    by_cases h : c.readyState = ReadyState.OPEN
    · simp [sendTargets, h, ih]
    · simp [sendTargets, h, ih]

/-- C6 counterexample: broadcasting to `{A, B, C}` where `B`'s send fails
does deliver to `A` and `C`, but `B` stays in the registry — the claim
that `B` is absent afterwards is false: no code removes it. -/
theorem C6_counterexample :
    ¬ ((({ id := 0, readyState := ReadyState.OPEN, sendOk := true } : Client) ∈
          (broadcastGrowth
            [{ id := 0, readyState := ReadyState.OPEN, sendOk := true },
             { id := 1, readyState := ReadyState.OPEN, sendOk := false },
             { id := 2, readyState := ReadyState.OPEN, sendOk := true }]).delivered ∧
        ({ id := 2, readyState := ReadyState.OPEN, sendOk := true } : Client) ∈
          (broadcastGrowth
            [{ id := 0, readyState := ReadyState.OPEN, sendOk := true },
             { id := 1, readyState := ReadyState.OPEN, sendOk := false },
             { id := 2, readyState := ReadyState.OPEN, sendOk := true }]).delivered) ∧
      ({ id := 1, readyState := ReadyState.OPEN, sendOk := false } : Client) ∉
        (broadcastGrowth
          [{ id := 0, readyState := ReadyState.OPEN, sendOk := true },
           { id := 1, readyState := ReadyState.OPEN, sendOk := false },
           { id := 2, readyState := ReadyState.OPEN, sendOk := true }]).registryAfter) := by
  decide

/-- C6 (amended): the broadcast is not aborted by `B`'s failure — `A` and
`C` still receive the message — but the broadcast code performs no
removal: the registry after the broadcast is unchanged, so `B` is still
present (it only leaves `wss.clients` when the `ws` library reacts to the
connection closing, outside this code). -/
theorem C6_amended_failure_isolated_no_removal (A B C : Client)
    (hA : A.readyState = ReadyState.OPEN) (hAok : A.sendOk = true)
    (hB : B.readyState = ReadyState.OPEN) (hBok : B.sendOk = false)
    (hC : C.readyState = ReadyState.OPEN) (hCok : C.sendOk = true) :
    (broadcastGrowth [A, B, C]).delivered = [A, C] ∧
    (broadcastGrowth [A, B, C]).registryAfter = [A, B, C] := by
  refine ⟨?_, rfl⟩
  show (sendTargets [A, B, C]).filter (·.sendOk) = [A, C]
  have ht : sendTargets [A, B, C] = [A, B, C] := by
    simp [sendTargets, hA, hB, hC]
  rw [ht]
  simp [List.filter, hAok, hBok, hCok]

/-- Witness for the amended C6 at three concrete clients. -/
theorem C6_witness :
    (({ id := 0, readyState := ReadyState.OPEN, sendOk := true } : Client).readyState
        = ReadyState.OPEN) ∧
    (broadcastGrowth
        [{ id := 0, readyState := ReadyState.OPEN, sendOk := true },
         { id := 1, readyState := ReadyState.OPEN, sendOk := false },
         { id := 2, readyState := ReadyState.OPEN, sendOk := true }]).delivered
      = [{ id := 0, readyState := ReadyState.OPEN, sendOk := true },
         { id := 2, readyState := ReadyState.OPEN, sendOk := true }] ∧
    (broadcastGrowth
        [{ id := 0, readyState := ReadyState.OPEN, sendOk := true },
         { id := 1, readyState := ReadyState.OPEN, sendOk := false },
         { id := 2, readyState := ReadyState.OPEN, sendOk := true }]).registryAfter
      = [{ id := 0, readyState := ReadyState.OPEN, sendOk := true },
         { id := 1, readyState := ReadyState.OPEN, sendOk := false },
         { id := 2, readyState := ReadyState.OPEN, sendOk := true }] :=
  ⟨rfl,
    C6_amended_failure_isolated_no_removal
      { id := 0, readyState := ReadyState.OPEN, sendOk := true }
      { id := 1, readyState := ReadyState.OPEN, sendOk := false }
      { id := 2, readyState := ReadyState.OPEN, sendOk := true }
      rfl rfl rfl rfl rfl rfl⟩

/-! ## The connect path (C7) -/

/-- The outcome of the initial-context read on connect: the promise from
`readLastLines` is fulfilled with the lines, or rejected because the file
is unreadable or missing. -/
inductive ReadResult
  | ok (lines : List (List Char))
  | err
deriving DecidableEq

/-- The text `'Error reading the log file.'` sent by the `catch`. -/
def errorText : List Char := "Error reading the log file.".toList

/-- JS `lines.join('\n')`. -/
def joinNl : List (List Char) → List Char
  | [] => []
  | [l] => l
  | l :: ls => l ++ '\n' :: joinNl ls

/-- The messages the `wss.on('connection')` handler sends, as
`(recipient, text)` pairs: `readLastLines(...).then(lines =>
ws.send(lines.join('\n'))).catch(() => ws.send('Error reading the log
file.'))`.  Both branches send exactly one message, to the connecting
client `ws` only; the rejection is consumed by the `catch`, so nothing
propagates into the watcher/broadcast path. -/
def onConnectSends (ws : Nat) (r : ReadResult) : List (Nat × List Char) :=
  match r with
  | .ok lines => [(ws, joinNl lines)]
  | .err => [(ws, errorText)]

/-- C7: when the log file is unreadable or missing at connect time, the
handler sends the error text to the connecting subscriber only; in every
case it sends exactly one message, addressed to the new subscriber, so no
other subscriber receives anything, and the rejected promise is handled
rather than escaping into the watcher loop. -/
theorem C7_connect_error_isolated (ws : Nat) (r : ReadResult) :
    onConnectSends ws ReadResult.err = [(ws, errorText)] ∧
    (onConnectSends ws r).length = 1 ∧
    ((onConnectSends ws r).all (fun m => m.1 == ws)) = true := by
  refine ⟨rfl, ?_, ?_⟩
  · cases r <;> rfl
  · cases r <;> simp [onConnectSends]
